import Mathlib

/-!
Verification of the obsidian-nanogpt plugin against its specification.

The definitions below are a shallow embedding of the plugin's TypeScript
source (src/api/NanoGPTClient.ts, src/storage/ChatHistoryManager.ts,
src/storage/ImageManager.ts, src/ui/ChatView.ts, src/ui/EditNoteModal.ts,
main.ts).  Strings of the host language are modelled as Lean `String` or
`List Char`; `Map` objects and plain-object dictionaries are modelled as
insertion-ordered association lists; timestamps are `Nat` milliseconds;
the network and Node/host built-ins (fetch, TextDecoder, Buffer base64
decoding, MD5, the vault) are abstracted as explicit parameters, since
they are not code of this repository.
-/

namespace NanoGPT

/-! ## SSE stream consumer (NanoGPTClient.streamChatCompletion)

The TypeScript loop keeps a string `buffer`, appends each decoded network
chunk, splits on `'\n'`, pops the trailing (possibly partial) line back
into the buffer, and processes every complete line.  We model the text as
`List Char` and define the line splitter recursively. -/

/-- Model of the relevant part of the `ChatCompletionChunk.choices[i].delta`
JSON object: only the `content` field is read by the source. -/
structure DeltaData where
  content : Option String
deriving DecidableEq, Repr

/-- Model of one element of `ChatCompletionChunk.choices`. -/
structure ChoiceData where
  delta : DeltaData
deriving DecidableEq, Repr

/-- Model of the parsed SSE JSON payload (`ChatCompletionChunk`): the source
only reads `chunk.choices[0]?.delta?.content`, so only `choices` is kept. -/
structure ChatCompletionChunk where
  choices : List ChoiceData
deriving DecidableEq, Repr

/-- `chunk.choices[0]?.delta?.content` from the source. -/
def headDeltaContent (ck : ChatCompletionChunk) : Option String :=
  (ck.choices.head?.map (fun c => c.delta)).bind (fun d => d.content)

/-- Whitespace as removed by JavaScript `String.prototype.trim`. -/
def isWS (c : Char) : Bool :=
  c.isWhitespace

/-- Model of JavaScript `line.trim()` on a list of characters. -/
def trimChars (l : List Char) : List Char :=
  ((l.dropWhile isWS).reverse.dropWhile isWS).reverse

/-- JavaScript `s.trim()` on a `String`. -/
def trimStr (s : String) : String :=
  String.mk (trimChars s.toList)

/-- The `'data: '` line marker tested with `startsWith` in the source. -/
def dataMarker : List Char :=
  "data: ".toList

/-- The sentinel line `'data: [DONE]'`. -/
def doneLine : List Char :=
  "data: [DONE]".toList

/-- Model of the per-line body of the `for (const line of lines)` loop in
`streamChatCompletion`: trim the line; skip it when it is empty, is the
sentinel, does not start with `'data: '`, fails to parse as JSON
(`parse` returns `none`), has no first choice, has no `delta.content`, or
has empty content; otherwise produce the content handed to `onChunk`.
JSON parsing is a host built-in and is abstracted as `parse`. -/
def processLine (parse : List Char → Option ChatCompletionChunk) (line : List Char) :
    Option String :=
  let t := trimChars line
  if t = [] then none
  else if t = doneLine then none
  else if dataMarker.isPrefixOf t then
    match parse (t.drop 6) with
    | none => none
    | some ck =>
      match headDeltaContent ck with
      | none => none
      | some s => if s = "" then none else some s
  else none

/-- Split a character list at `'\n'`, mirroring JavaScript
`buffer.split('\n')`: always returns at least one (possibly empty) part,
and the last part is the text after the final newline. -/
def splitLines : List Char → List (List Char)
  | [] => [[]]
  | c :: cs =>
    if c = '\n' then [] :: splitLines cs
    else
      match splitLines cs with
      | [] => [[c]]
      | l :: ls => (c :: l) :: ls

/-- The last part of a split, with `[]` for the (impossible) empty split;
models `lines.pop() || ''` in the source. -/
def lastPart (l : List (List Char)) : List Char :=
  l.getLastD []

/-- Prepend `x` to the first part of a split (the merge that happens at a
chunk boundary). -/
def glueFirst (x : List Char) : List (List Char) → List (List Char)
  | [] => [x]
  | l :: ls => (x ++ l) :: ls

/-- One iteration of the `while` loop of `streamChatCompletion` for a newly
decoded text `chunk`: append to the buffer, split on newlines, keep the last
part as the new buffer, and process every complete line in order.  Returns
the new buffer and the arguments passed to `onChunk`, in order. -/
def sseStep (parse : List Char → Option ChatCompletionChunk)
    (buffer chunk : List Char) : List Char × List String :=
  let parts := splitLines (buffer ++ chunk)
  (lastPart parts, parts.dropLast.filterMap (processLine parse))

/-- The whole read loop over the successive decoded chunks of the response
body, starting from buffer state `buffer`.  Returns the final buffer and
the concatenated `onChunk` call sequence. -/
def sseRun (parse : List Char → Option ChatCompletionChunk)
    (buffer : List Char) : List (List Char) → List Char × List String
  | [] => (buffer, [])
  | ch :: rest =>
    let step := sseStep parse buffer ch
    let next := sseRun parse step.1 rest
    (next.1, step.2 ++ next.2)

/-! ## Model listing and its cache (NanoGPTClient.listModels / listImageModels)

`modelCache` is a `Map<string, {models, timestamp}>` keyed by
`'subscription'` / `'all'`; `imageModelCache` is a single nullable entry.
Both are modelled as insertion-ordered association data.  `Date.now()` is
the `now` parameter; the network fetch (and JSON field extraction, which is
host behaviour) is the `fetchResult` parameter, `Except.error` standing for
any thrown error, including the missing-API-key error. -/

/-- Model of the `NanoGPTModel` interface fields the fallback list sets
(`id`, `object`, `name`); the remaining optional metadata fields are not
read by the caching logic and are omitted. -/
structure NanoGPTModel where
  id : String
  object : String
  name : Option String := none
deriving DecidableEq, Repr

/-- Model of the `NanoGPTImageModel` interface. -/
structure NanoGPTImageModel where
  model : String
  name : String
  description : Option String := none
  engine : Option String := none
deriving DecidableEq, Repr

/-- `CACHE_DURATION = 5 * 60 * 1000` milliseconds. -/
def CACHE_DURATION : Nat :=
  5 * 60 * 1000

/-- One stored entry of `modelCache`. -/
structure CacheEntry where
  models : List NanoGPTModel
  timestamp : Nat
deriving DecidableEq, Repr

/-- The nullable `imageModelCache` entry. -/
structure ImageCacheEntry where
  models : List NanoGPTImageModel
  timestamp : Nat
deriving DecidableEq, Repr

/-- `Map.get` on an insertion-ordered association list. -/
def mapGet {α : Type} : List (String × α) → String → Option α
  | [], _ => none
  | e :: rest, k => if e.fst = k then some e.snd else mapGet rest k

/-- `Map.set` (or plain-object key assignment): replace the value at an
existing key in place, otherwise append a new entry. -/
def mapSet {α : Type} : List (String × α) → String → α → List (String × α)
  | [], k, v => [(k, v)]
  | e :: rest, k, v => if e.fst = k then (k, v) :: rest else e :: mapSet rest k v

/-- `const cacheKey = subscriptionOnly ? 'subscription' : 'all'`. -/
def cacheKeyFor (subscriptionOnly : Bool) : String :=
  if subscriptionOnly then "subscription" else "all"

/-- The hard-coded fallback list returned by `listModels` from its `catch`
branch. -/
def fallbackModels : List NanoGPTModel :=
  [ { id := "zai-org/glm-4.7", object := "model", name := some "GLM 4.7" },
    { id := "gpt-4o", object := "model", name := some "GPT-4o" },
    { id := "claude-3-5-sonnet-20240620", object := "model", name := some "Claude 3.5 Sonnet" } ]

/-- The hard-coded fallback list returned by `listImageModels` from its
`catch` branch. -/
def fallbackImageModels : List NanoGPTImageModel :=
  [ { model := "flux-pro", name := "Flux Pro" },
    { model := "dall-e-3", name := "DALL-E 3" },
    { model := "stable-diffusion-xl", name := "Stable Diffusion XL" } ]

/-- Result of a `listModels` call: returned list, cache state afterwards,
and whether the fetch path (rather than the fresh-cache path) was taken. -/
structure ListModelsResult where
  models : List NanoGPTModel
  cache : List (String × CacheEntry)
  fetchAttempted : Bool
deriving DecidableEq, Repr

/-- The fetch-and-store tail of `listModels`: on a thrown fetch the fallback
is returned with the cache untouched; on success the result is stored under
`key` with the current timestamp. -/
def listModelsFetch (mc : List (String × CacheEntry)) (key : String) (now : Nat)
    (fetchResult : Except Unit (List NanoGPTModel)) : ListModelsResult :=
  match fetchResult with
  | Except.error _ => ⟨fallbackModels, mc, true⟩
  | Except.ok models => ⟨models, mapSet mc key ⟨models, now⟩, true⟩

/-- `NanoGPTClient.listModels`: serve a cached entry younger than
`CACHE_DURATION`, otherwise fetch. -/
def listModels (mc : List (String × CacheEntry)) (now : Nat)
    (subscriptionOnly : Bool) (fetchResult : Except Unit (List NanoGPTModel)) :
    ListModelsResult :=
  let cacheKey := cacheKeyFor subscriptionOnly
  match mapGet mc cacheKey with
  | some cached =>
    if now - cached.timestamp < CACHE_DURATION then ⟨cached.models, mc, false⟩
    else listModelsFetch mc cacheKey now fetchResult
  | none => listModelsFetch mc cacheKey now fetchResult

/-- The guard `cached && Date.now() - cached.timestamp < CACHE_DURATION`. -/
def cacheFresh (mc : List (String × CacheEntry)) (key : String) (now : Nat) : Bool :=
  match mapGet mc key with
  | some e => decide (now - e.timestamp < CACHE_DURATION)
  | none => false

/-- Result of a `listImageModels` call, as for `ListModelsResult`. -/
structure ListImageModelsResult where
  models : List NanoGPTImageModel
  cache : Option ImageCacheEntry
  fetchAttempted : Bool
deriving DecidableEq, Repr

/-- `NanoGPTClient.listImageModels`: same cache discipline with a single
nullable entry. -/
def listImageModels (cache : Option ImageCacheEntry) (now : Nat)
    (fetchResult : Except Unit (List NanoGPTImageModel)) : ListImageModelsResult :=
  match cache with
  | some c =>
    if now - c.timestamp < CACHE_DURATION then ⟨c.models, cache, false⟩
    else
      match fetchResult with
      | Except.error _ => ⟨fallbackImageModels, cache, true⟩
      | Except.ok models => ⟨models, some ⟨models, now⟩, true⟩
  | none =>
    match fetchResult with
    | Except.error _ => ⟨fallbackImageModels, cache, true⟩
    | Except.ok models => ⟨models, some ⟨models, now⟩, true⟩

/-- The guard `imageModelCache && Date.now() - imageModelCache.timestamp <
CACHE_DURATION`. -/
def imageCacheFresh (cache : Option ImageCacheEntry) (now : Nat) : Bool :=
  match cache with
  | some e => decide (now - e.timestamp < CACHE_DURATION)
  | none => false

/-! ## Authenticated requests (NanoGPTClient.fetchWithAuth and callers)

The client state touched by any method is just the two caches.  Each method
is modelled with the network response as an `Except` parameter and returns
its result, the caches afterwards, and the number of HTTP requests issued. -/

/-- The two caches owned by `NanoGPTClient`. -/
structure ClientCaches where
  modelCache : List (String × CacheEntry)
  imageModelCache : Option ImageCacheEntry
deriving DecidableEq, Repr

/-- `fetchWithAuth`: with an empty API key it throws `'API key is required'`
before issuing any request; otherwise it performs exactly one request whose
outcome (including the non-`ok`-status error) is `net`. -/
def fetchWithAuth {R : Type} (apiKey : String) (net : Except String R) :
    Except String R × Nat :=
  if apiKey = "" then (Except.error "API key is required", 0)
  else (net, 1)

/-- `streamChatCompletion` at the client level: authenticate and fetch, then
run the SSE loop over the decoded body chunks.  Request construction and
the callbackʼs side effects live in the caller and do not touch the caches. -/
def streamChatCompletion (apiKey : String) (caches : ClientCaches)
    (net : Except String (List (List Char)))
    (parse : List Char → Option ChatCompletionChunk) :
    Except String (List String) × ClientCaches × Nat :=
  match fetchWithAuth apiKey net with
  | (Except.error e, n) => (Except.error e, caches, n)
  | (Except.ok body, n) => (Except.ok (sseRun parse [] body).2, caches, n)

/-- One `data` element of the image generation response. -/
structure ImageDataItem where
  url : Option String := none
  b64_json : Option String := none
deriving DecidableEq, Repr

/-- The image generation response body. -/
structure ImageGenerationResponse where
  data : List ImageDataItem
deriving DecidableEq, Repr

/-- `generateImage`: authenticate, fetch, return the parsed JSON. -/
def generateImage (apiKey : String) (caches : ClientCaches)
    (net : Except String ImageGenerationResponse) :
    Except String ImageGenerationResponse × ClientCaches × Nat :=
  let r := fetchWithAuth apiKey net
  (r.1, caches, r.2)

/-- One result of the web search response. -/
structure WebSearchResultItem where
  title : String
  url : String
  summary : String
  source : Option String := none
deriving DecidableEq, Repr

/-- The web search response body. -/
structure WebSearchResponse where
  query : String
  results : List WebSearchResultItem
deriving DecidableEq, Repr

/-- `webSearch`: authenticate, fetch, return the parsed JSON (the optional
request-options JSON parsing affects only the request body, not the state). -/
def webSearch (apiKey : String) (caches : ClientCaches)
    (net : Except String WebSearchResponse) :
    Except String WebSearchResponse × ClientCaches × Nat :=
  let r := fetchWithAuth apiKey net
  (r.1, caches, r.2)

/-- One result of the scrape response. -/
structure ScrapeResultItem where
  url : String
  success : Bool
  title : Option String := none
  content : Option String := none
  markdown : Option String := none
deriving DecidableEq, Repr

/-- The scrape response body. -/
structure ScrapeUrlsResponse where
  results : List ScrapeResultItem
deriving DecidableEq, Repr

/-- `scrapeUrls`: authenticate, fetch, return the parsed JSON. -/
def scrapeUrls (apiKey : String) (caches : ClientCaches)
    (net : Except String ScrapeUrlsResponse) :
    Except String ScrapeUrlsResponse × ClientCaches × Nat :=
  let r := fetchWithAuth apiKey net
  (r.1, caches, r.2)

/-- `checkBalance`: authenticate, fetch, return `data.balance || 0`. -/
def checkBalance (apiKey : String) (caches : ClientCaches)
    (net : Except String (Option Nat)) :
    Except String Nat × ClientCaches × Nat :=
  match fetchWithAuth apiKey net with
  | (Except.error e, n) => (Except.error e, caches, n)
  | (Except.ok b, n) => (Except.ok (b.getD 0), caches, n)

/-! ## Inline autocomplete request ids (NanoGPTPlugin.inlineAutocomplete) -/

/-- `const requestId = ++this.inlineAutocompleteRequestId`: the invocation
receives the incremented counter, which is also the new counter value. -/
def issueRequestId (counter : Nat) : Nat × Nat :=
  (counter + 1, counter + 1)

/-- The ids handed to `k` successive invocations starting from counter
value `c`. -/
def requestIdSeq : Nat → Nat → List Nat
  | _, 0 => []
  | c, k + 1 => (issueRequestId c).1 :: requestIdSeq (issueRequestId c).2 k

/-- An editor cursor `{line, ch}`. -/
structure CursorPos where
  line : Nat
  ch : Nat
deriving DecidableEq, Repr

/-- What the tail of `inlineAutocomplete` does to the editor after the
streamed completion finishes. -/
inductive AutocompleteOutcome where
  | noChange
  | ghostText (text : String) (pos : Nat)
  | insertText (text : String) (cursor : CursorPos)
deriving DecidableEq, Repr

/-- JavaScript `completion.replace(/^\s+/, '').trimEnd()`. -/
def cleanCompletion (s : String) : String :=
  String.mk (((s.toList.dropWhile isWS).reverse.dropWhile isWS).reverse)

/-- The code after `await streamChatCompletion` in `inlineAutocomplete`:
drop the result when the request id is stale, when the cursor moved, or when
the line no longer extends the snapshot; otherwise set ghost text (or, with
no CodeMirror view, insert directly). -/
def inlineAutocompleteFinish (requestId currentRequestId : Nat)
    (origCursor currentCursor : CursorPos)
    (lineStartSnapshot currentLine : String)
    (completion : String) (cmAvailable : Bool) (cursorOffset : Nat) :
    AutocompleteOutcome :=
  if requestId ≠ currentRequestId then AutocompleteOutcome.noChange
  else if currentCursor ≠ origCursor then AutocompleteOutcome.noChange
  else if ¬ lineStartSnapshot.isPrefixOf currentLine then AutocompleteOutcome.noChange
  else
    let cleaned := cleanCompletion completion
    if cleaned = "" then AutocompleteOutcome.noChange
    else if cmAvailable then AutocompleteOutcome.ghostText cleaned cursorOffset
    else AutocompleteOutcome.insertText cleaned origCursor

/-! ## ChatView.sendMessage, as its sequence of observable effects -/

/-- Observable effects of one `sendMessage` call. -/
inductive ChatEvent where
  | setGenerating (flag : Bool)
  | pushMessage (role : String)
  | httpRequest (endpoint : String)
  | saveHistory
  | errorNotice (msg : String)
deriving DecidableEq, Repr

/-- `ChatView.sendMessage` as an event trace: the guard returns with no
effects; otherwise the generation flag is raised, the user message pushed,
the branch-specific work `attemptEvents` (note reads, scraping, streaming
requests, UI updates) runs inside `try`, and the `finally` clause lowers the
flag whether the attempt succeeded or threw. -/
def sendMessage (input : String) (isGenerating hasActiveFile : Bool)
    (attemptEvents : List ChatEvent) (outcome : Except String Unit) :
    List ChatEvent :=
  if trimStr input = "" ∨ isGenerating = true ∨ hasActiveFile = false then []
  else
    [ChatEvent.setGenerating true, ChatEvent.pushMessage "user"] ++ attemptEvents ++
      (match outcome with
       | Except.ok _ => [ChatEvent.pushMessage "assistant", ChatEvent.saveHistory]
       | Except.error e => [ChatEvent.errorNotice e]) ++
      [ChatEvent.setGenerating false]

/-! ## Chat history store (ChatHistoryManager) -/

/-- A chat message role. -/
inductive ChatRole where
  | user
  | assistant
  | system
deriving DecidableEq, Repr

/-- Model of the `ChatMessage` interface. -/
structure ChatMessage where
  role : ChatRole
  content : String
  timestamp : Option String := none
  model : Option String := none
deriving DecidableEq, Repr

/-- `loadChatHistory`: `this.history[file.path] || []`. -/
def loadChatHistory (history : List (String × List ChatMessage)) (path : String) :
    List ChatMessage :=
  (mapGet history path).getD []

/-- `saveChatHistory`: `this.history[file.path] = messages` (persistence via
`saveData` is a host effect outside this model). -/
def saveChatHistory (history : List (String × List ChatMessage)) (path : String)
    (messages : List ChatMessage) : List (String × List ChatMessage) :=
  mapSet history path messages

/-- `appendMessage`: load, push, save. -/
def appendMessage (history : List (String × List ChatMessage)) (path : String)
    (message : ChatMessage) : List (String × List ChatMessage) :=
  saveChatHistory history path (loadChatHistory history path ++ [message])

/-- `clearChatHistory`: save the empty list. -/
def clearChatHistory (history : List (String × List ChatMessage)) (path : String) :
    List (String × List ChatMessage) :=
  saveChatHistory history path []

/-! ## Folder context (ChatView.getFolderContext / EditNoteModal.getFolderContext,
identical code) -/

/-- A markdown file of the vault as the folder-context code sees it:
its path, its parent folderʼs path (`file.parent?.path`), its basename, and
the outcome of `vault.read` (`none` models a thrown read, which the loop
catches and skips). -/
structure VaultFile where
  path : String
  parent : Option String
  basename : String
  readResult : Option String
deriving DecidableEq, Repr

/-- The per-file context block `` `\n---\nFile: ${file.basename}\n${content}\n` ``. -/
def mkEntry (basename content : String) : String :=
  "\n---\nFile: " ++ basename ++ "\n" ++ content ++ "\n"

/-- The filter over `vault.getMarkdownFiles()`: drop the active note, keep
files whose parent path equals the active noteʼs parent path (with `''`
standing for a missing parent on the active side, as in
`this.file.parent?.path ?? ''`). -/
def siblingFiles (allFiles : List VaultFile) (active : VaultFile) : List VaultFile :=
  allFiles.filter (fun f =>
    f.path != active.path && f.parent == some (active.parent.getD ""))

/-- The accumulation loop of `getFolderContext` over the filtered files,
carrying `totalChars` and `fileCount`: stop at the file-count limit, skip
unreadable or empty files, stop before an entry would push the running
character total past `maxChars`. -/
def pickEntries (maxFiles maxChars : Nat) :
    List VaultFile → Nat → Nat → List String
  | [], _, _ => []
  | f :: rest, totalChars, fileCount =>
    if maxFiles ≤ fileCount then []
    else
      match f.readResult with
      | none => pickEntries maxFiles maxChars rest totalChars fileCount
      | some content =>
        if content = "" then pickEntries maxFiles maxChars rest totalChars fileCount
        else
          let nextEntry := mkEntry f.basename content
          if maxChars < totalChars + nextEntry.length then []
          else
            nextEntry ::
              pickEntries maxFiles maxChars rest (totalChars + nextEntry.length)
                (fileCount + 1)

/-- The wrapper line `` `\n\nContext from notes in folder "${folderPath || '/'}":\n` ``. -/
def folderHeader (folderPath : String) : String :=
  "\n\nContext from notes in folder \"" ++
    (if folderPath = "" then "/" else folderPath) ++ "\":\n"

/-- `getFolderContext` in full. -/
def getFolderContext (enabled : Bool) (maxFiles maxChars : Nat)
    (allFiles : List VaultFile) (active : VaultFile) : String :=
  if enabled = false then ""
  else
    let files := siblingFiles allFiles active
    if files = [] then ""
    else
      let entries := pickEntries maxFiles maxChars files 0 0
      if entries = [] then ""
      else folderHeader (active.parent.getD "") ++ String.join entries

/-- Total character count of a list of context entries. -/
def sumLen (l : List String) : Nat :=
  (l.map String.length).sum

/-! ## Image store (ImageManager.saveImageToVault) -/

/-- What `saveImageToVault` produces: the vault path it writes, the bytes it
writes there, and the markdown link it returns. -/
structure ImageSaveResult where
  path : String
  bytes : List Nat
  link : String
deriving DecidableEq, Repr

/-- `generateShortHash`: first 8 hex digits of the MD5 digest (the MD5
implementation is `node:crypto`, abstracted as `md5hex`). -/
def generateShortHash (md5hex : String → String) (promptText : String) : String :=
  (md5hex promptText).take 8

/-- `ImageManager.saveImageToVault` (success path): decode the base64
payload (a `Buffer` built-in, abstracted as `decodeBase64`), build the
filename `nanogpt-<timestamp>-<hash>.png`, resolve it through the hostʼs
`getAvailablePathForAttachment`, write the bytes there, and return the
embed link built from the generated filename. -/
def saveImageToVault (decodeBase64 : String → List Nat) (md5hex : String → String)
    (availablePathForAttachment : String → String) (now : Nat)
    (base64Data promptText : String) : ImageSaveResult :=
  let hash := generateShortHash md5hex promptText
  let filename := "nanogpt-" ++ toString now ++ "-" ++ hash ++ ".png"
  { path := availablePathForAttachment filename
    bytes := decodeBase64 base64Data
    link := "![[" ++ filename ++ "]]" }

/-! ## Ghost text (ghostTextStateField / acceptGhostText) -/

/-- The CodeMirror state field value `{ text, pos }`. -/
structure GhostTextState where
  text : String
  pos : Nat
deriving DecidableEq, Repr

/-- The two state effects defined in main.ts. -/
inductive GhostEffect where
  | setGhost (value : GhostTextState)
  | clearGhost
deriving DecidableEq, Repr

/-- Effect handling of the `update` function of `ghostTextStateField`. -/
def applyGhostEffect (_acc : GhostTextState) (e : GhostEffect) : GhostTextState :=
  match e with
  | GhostEffect.setGhost v => v
  | GhostEffect.clearGhost => ⟨"", 0⟩

/-- The `update` function of `ghostTextStateField`: fold the transactionʼs
effects, then remap the position through the documentʼs change mapping when
the document changed and ghost text remains. -/
def ghostTextUpdate (value : GhostTextState) (effects : List GhostEffect)
    (docChanged : Bool) (mapPos : Nat → Nat) : GhostTextState :=
  let next := effects.foldl applyGhostEffect value
  if docChanged && next.text != "" then { next with pos := mapPos next.pos }
  else next

/-- Insertion of `s` at character position `p` of the document. -/
def insertAt (doc : String) (p : Nat) (s : String) : String :=
  String.mk (doc.toList.take p ++ s.toList ++ doc.toList.drop p)

/-- `changes.mapPos` for a pure insertion of `insLen` characters at
`insPos`. -/
def mapPosInsert (insPos insLen p : Nat) : Nat :=
  if insPos < p then p + insLen else p

/-- `acceptGhostText` (the Tab handler): with no ghost text it returns
`false` and dispatches nothing; otherwise it dispatches one transaction
inserting the ghost text at its position together with the clear effect,
and returns `true`.  Result: (handler return, document, field state). -/
def acceptGhostText (doc : String) (ghost : GhostTextState) :
    Bool × String × GhostTextState :=
  if ghost.text = "" then (false, doc, ghost)
  else
    (true, insertAt doc ghost.pos ghost.text,
      ghostTextUpdate ghost [GhostEffect.clearGhost] true
        (mapPosInsert ghost.pos ghost.text.length))

/-! ## Concrete instances used by the witnesses -/

/-- A concrete JSON parse oracle for the SSE witness. -/
def parseW : List Char → Option ChatCompletionChunk := fun payload =>
  if payload = "J1".toList then some ⟨[⟨⟨some "Hello"⟩⟩]⟩
  else if payload = "J2".toList then some ⟨[⟨⟨some " world"⟩⟩]⟩
  else none

/-- A concrete chunked response body for the SSE witness: a `data:` line cut
across a chunk boundary, a blank line, the sentinel, a non-`data:` line, and
an unparsable payload. -/
def sseChunksW : List (List Char) :=
  ["data: J1\nda".toList, "ta: J2\n\ndata: [DONE]\nx".toList, "data: bad\n".toList]

/-- A concrete active note for the folder-context witness. -/
def activeW : VaultFile :=
  ⟨"dir/a.md", some "dir", "a", some "A"⟩

/-- A concrete vault for the folder-context witness: the active note, one
sibling, and one note in a different folder. -/
def vaultW : List VaultFile :=
  [activeW, ⟨"dir/b.md", some "dir", "b", some "Bee"⟩, ⟨"x/c.md", some "x", "c", some "C"⟩]

theorem splitLines_ne_nil (l : List Char) : splitLines l ≠ [] := by
  induction l with
  | nil => simp [splitLines]
  | cons c cs ih =>
    simp only [splitLines]
    split
    · simp
    · match h : splitLines cs with
      | [] => simp
      | p :: ps => simp

theorem lastPart_cons_of_ne_nil (a : List Char) {l : List (List Char)} (h : l ≠ []) :
    lastPart (a :: l) = lastPart l := by
  match l with
  | [] => exact absurd rfl h
  | b :: l' => simp [lastPart, List.getLastD_cons]

theorem lastPart_append {Y : List (List Char)} (X : List (List Char)) (h : Y ≠ []) :
    lastPart (X ++ Y) = lastPart Y := by
  induction X with
  | nil => rfl
  | cons x X' ih =>
    rw [List.cons_append, lastPart_cons_of_ne_nil x (by simp [h]), ih]

theorem lastPart_mem {l : List (List Char)} (h : l ≠ []) : lastPart l ∈ l := by
  induction l with
  | nil => exact absurd rfl h
  | cons a l' ih =>
    match l' with
    | [] => simp [lastPart, List.getLastD]
    | b :: l'' =>
      rw [lastPart_cons_of_ne_nil a (by simp)]
      exact List.mem_cons_of_mem a (ih (by simp))

theorem dropLast_append_of_ne_nil' {Y : List (List Char)} (X : List (List Char))
    (h : Y ≠ []) : (X ++ Y).dropLast = X ++ Y.dropLast := by
  induction X with
  | nil => rfl
  | cons x X' ih =>
    match hXY : X' ++ Y with
    | [] => exact absurd (List.append_eq_nil.mp hXY).2 h
    | z :: zs =>
      rw [List.cons_append, hXY, List.dropLast_cons₂, ← hXY, ih, List.cons_append]

theorem splitLines_append (a b : List Char) :
    splitLines (a ++ b) =
      (splitLines a).dropLast ++ glueFirst (lastPart (splitLines a)) (splitLines b) := by
  induction a with
  | nil =>
    obtain ⟨l, ls, hb⟩ := List.exists_cons_of_ne_nil (splitLines_ne_nil b)
    simp [splitLines, lastPart, List.getLastD, hb, glueFirst]
  | cons c a' ih =>
    by_cases hc : c = '\n'
    · have hne := splitLines_ne_nil a'
      rw [List.cons_append, splitLines, if_pos hc, ih, splitLines, if_pos hc,
        List.dropLast_cons_of_ne_nil hne, lastPart_cons_of_ne_nil _ hne, List.cons_append]
    · rw [List.cons_append, splitLines, if_neg hc, splitLines, if_neg hc]
      match hS : splitLines a' with
      | [] => exact absurd hS (splitLines_ne_nil a')
      | [s] =>
        obtain ⟨l, ls, hb⟩ := List.exists_cons_of_ne_nil (splitLines_ne_nil b)
        rw [ih, hS, hb]
        simp [lastPart, List.getLastD, glueFirst]
      | s :: s2 :: rest =>
        rw [ih, hS]
        simp only [List.dropLast_cons₂, List.cons_append,
          lastPart_cons_of_ne_nil s (l := s2 :: rest) (by simp),
          lastPart_cons_of_ne_nil (c :: s) (l := s2 :: rest) (by simp)]

theorem not_newline_of_mem_splitLines {l : List Char} {p : List Char}
    (hp : p ∈ splitLines l) : '\n' ∉ p := by
  induction l generalizing p with
  | nil =>
    simp [splitLines] at hp
    simp [hp]
  | cons c cs ih =>
    simp only [splitLines] at hp
    split at hp
    · rcases List.mem_cons.mp hp with h | h
      · simp [h]
      · exact ih h
    · match hS : splitLines cs with
      | [] => exact absurd hS (splitLines_ne_nil cs)
      | q :: qs =>
        rw [hS] at hp
        rcases List.mem_cons.mp hp with h | h
        · subst h
          intro hmem
          rcases List.mem_cons.mp hmem with h | h
          · exact ‹¬ c = '\n'› h.symm
          · exact ih (hS ▸ List.mem_cons_self q qs) h
        · exact ih (hS ▸ List.mem_cons_of_mem q h)

theorem not_newline_lastPart (l : List Char) : '\n' ∉ lastPart (splitLines l) :=
  not_newline_of_mem_splitLines (lastPart_mem (splitLines_ne_nil l))

theorem splitLines_of_not_newline {x : List Char} (hx : '\n' ∉ x) :
    splitLines x = [x] := by
  induction x with
  | nil => rfl
  | cons c cs ih =>
    have hc : ¬ c = '\n' := fun h => hx (h ▸ List.mem_cons_self c cs)
    have hcs : '\n' ∉ cs := fun h => hx (List.mem_cons_of_mem c h)
    rw [splitLines, if_neg hc, ih hcs]

theorem splitLines_glue {x f : List Char} (hx : '\n' ∉ x) :
    splitLines (x ++ f) = glueFirst x (splitLines f) := by
  rw [splitLines_append, splitLines_of_not_newline hx]
  simp [lastPart, List.getLastD]

/-- The buffered chunk-by-chunk run of the SSE loop is equivalent to
splitting the whole concatenated stream at newlines: every complete line is
processed exactly once, in stream order, and the trailing partial line
remains in the buffer. -/
theorem sseRun_eq_splitLines (parse : List Char → Option ChatCompletionChunk)
    (buffer : List Char) (hb : '\n' ∉ buffer) (chunks : List (List Char)) :
    sseRun parse buffer chunks =
      (lastPart (splitLines (buffer ++ chunks.flatten)),
        (splitLines (buffer ++ chunks.flatten)).dropLast.filterMap (processLine parse)) := by
  induction chunks generalizing buffer with
  | nil =>
    simp [sseRun, splitLines_of_not_newline hb, lastPart, List.getLastD]
  | cons ch rest ih =>
    have hb' : '\n' ∉ lastPart (splitLines (buffer ++ ch)) :=
      not_newline_lastPart (buffer ++ ch)
    have hsplit : splitLines (buffer ++ (ch :: rest).flatten) =
        (splitLines (buffer ++ ch)).dropLast ++
          splitLines (lastPart (splitLines (buffer ++ ch)) ++ rest.flatten) := by
      rw [List.flatten_cons, ← List.append_assoc, splitLines_append,
        splitLines_glue hb']
    have hY : splitLines (lastPart (splitLines (buffer ++ ch)) ++ rest.flatten) ≠ [] :=
      splitLines_ne_nil _
    rw [sseRun]
    simp only [sseStep]
    rw [ih _ hb', hsplit, lastPart_append _ hY, dropLast_append_of_ne_nil' _ hY,
      List.filterMap_append]

/-! ## Claim theorems -/

/-- Claim C1.  For every server-sent-event response body, the
`streamChatCompletion` loop accumulates decoded chunks in its buffer,
splits off complete lines at newlines keeping the trailing partial line
buffered, and the `onChunk` calls are exactly the `processLine` results of
the complete lines of the whole stream, once each and in stream order;
`processLine` skips empty lines, the `'data: [DONE]'` sentinel, lines not
beginning with `'data: '` and lines whose payload fails to parse (the
stream continues), and yields `choices[0].delta.content` exactly for
payloads with non-empty content. -/
theorem sse_stream_spec (parse : List Char → Option ChatCompletionChunk)
    (chunks : List (List Char)) :
    sseRun parse [] chunks =
      (lastPart (splitLines chunks.flatten),
        (splitLines chunks.flatten).dropLast.filterMap (processLine parse))
    ∧ (∀ line, parse ((trimChars line).drop 6) = none →
        processLine parse line = none)
    ∧ (∀ line, trimChars line = [] → processLine parse line = none)
    ∧ (∀ line, trimChars line = doneLine → processLine parse line = none)
    ∧ (∀ line, dataMarker.isPrefixOf (trimChars line) = false →
        processLine parse line = none)
    ∧ (∀ line ck s, dataMarker.isPrefixOf (trimChars line) = true →
        trimChars line ≠ doneLine →
        parse ((trimChars line).drop 6) = some ck →
        headDeltaContent ck = some s → s ≠ "" →
        processLine parse line = some s) := by
  refine ⟨?_, ?_, ?_, ?_, ?_, ?_⟩
  · have h := sseRun_eq_splitLines parse [] (by simp) chunks
    simpa using h
  · intro line h
    simp [processLine, h]
  · intro line h
    simp [processLine, h]
  · intro line h
    simp [processLine, h]
  · intro line h
    simp [processLine, h]
  · intro line ck s hpre hdone hparse hcontent hs
    have hne : trimChars line ≠ [] := by
      intro h
      rw [h] at hpre
      simp [dataMarker] at hpre
    simp [processLine, hne, hdone, hpre, hparse, hcontent, hs]

/-- Witness for C1 at a concrete stream and parse oracle. -/
theorem sse_stream_spec_witness :
    (sseRun parseW [] sseChunksW).2 = ["Hello", " world"]
    ∧ processLine parseW ("data: bad".toList) = none := by
  have h := sse_stream_spec parseW sseChunksW
  refine ⟨?_, h.2.1 _ (by decide)⟩
  rw [h.1]
  decide

/-- Claim C7.  For every base64 payload and prompt, `saveImageToVault`
decodes the payload into the bytes it writes, creates the file at the
available attachment path derived from the generated name
`nanogpt-<timestamp>-<first 8 hex digits of the MD5 of the prompt>.png`,
and returns the markdown embed link built from that filename. -/
theorem saveImageToVault_spec (decodeBase64 : String → List Nat)
    (md5hex : String → String) (availablePathForAttachment : String → String)
    (now : Nat) (base64Data promptText : String) :
    (saveImageToVault decodeBase64 md5hex availablePathForAttachment now
        base64Data promptText).bytes = decodeBase64 base64Data
    ∧ (saveImageToVault decodeBase64 md5hex availablePathForAttachment now
        base64Data promptText).path =
      availablePathForAttachment
        ("nanogpt-" ++ toString now ++ "-" ++ (md5hex promptText).take 8 ++ ".png")
    ∧ (saveImageToVault decodeBase64 md5hex availablePathForAttachment now
        base64Data promptText).link =
      "![[" ++ ("nanogpt-" ++ toString now ++ "-" ++ (md5hex promptText).take 8 ++ ".png")
        ++ "]]" := by
  exact ⟨rfl, rfl, rfl⟩

/-- Claim C8.  When the ghost-text state holds non-empty text at position
`p`, the Tab handler inserts exactly that text into the document at `p`,
resets the state field to the empty ghost text, and returns `true`; with
empty ghost text it returns `false` and leaves document and state alone. -/
theorem acceptGhostText_spec (doc : String) (g : GhostTextState) :
    (g.text ≠ "" →
      acceptGhostText doc g = (true, insertAt doc g.pos g.text, ⟨"", 0⟩))
    ∧ (g.text = "" → acceptGhostText doc g = (false, doc, g)) := by
  constructor
  · intro h
    simp [acceptGhostText, h, ghostTextUpdate, applyGhostEffect]
  · intro h
    simp [acceptGhostText, h]

/-- Witness for C8 at a concrete document and ghost state. -/
theorem acceptGhostText_spec_witness :
    acceptGhostText "ab" ⟨"x", 1⟩ = (true, "axb", ⟨"", 0⟩)
    ∧ acceptGhostText "ab" ⟨"", 5⟩ = (false, "ab", ⟨"", 5⟩) := by
  constructor
  · have h := (acceptGhostText_spec "ab" ⟨"x", 1⟩).1 (by decide)
    rw [h]
    decide
  · exact (acceptGhostText_spec "ab" ⟨"", 5⟩).2 rfl

/-- Claim C9.  With an empty API key `fetchWithAuth` throws
`'API key is required'` before any request, so `streamChatCompletion`,
`generateImage`, `webSearch`, `scrapeUrls` and `checkBalance` all reject
with that error, issue zero HTTP requests, and leave the caches unchanged. -/
theorem fetchWithAuth_empty_key_spec (caches : ClientCaches)
    (net1 : Except String (List (List Char)))
    (parse : List Char → Option ChatCompletionChunk)
    (net2 : Except String ImageGenerationResponse)
    (net3 : Except String WebSearchResponse)
    (net4 : Except String ScrapeUrlsResponse)
    (net5 : Except String (Option Nat)) (net0 : Except String Unit) :
    fetchWithAuth "" net0 = (Except.error "API key is required", 0)
    ∧ streamChatCompletion "" caches net1 parse =
        (Except.error "API key is required", caches, 0)
    ∧ generateImage "" caches net2 = (Except.error "API key is required", caches, 0)
    ∧ webSearch "" caches net3 = (Except.error "API key is required", caches, 0)
    ∧ scrapeUrls "" caches net4 = (Except.error "API key is required", caches, 0)
    ∧ checkBalance "" caches net5 = (Except.error "API key is required", caches, 0) := by
  refine ⟨rfl, ?_, rfl, rfl, rfl, ?_⟩
  · simp [streamChatCompletion, fetchWithAuth]
  · simp [checkBalance, fetchWithAuth]

theorem mapGet_mapSet_self {α : Type} (m : List (String × α)) (k : String) (v : α) :
    mapGet (mapSet m k v) k = some v := by
  induction m with
  | nil => simp [mapGet, mapSet]
  | cons e rest ih =>
    by_cases h : e.fst = k
    · simp [mapSet, mapGet, h]
    · simp [mapSet, mapGet, h, ih]

theorem mapGet_mapSet_ne {α : Type} (m : List (String × α)) (k q : String) (v : α)
    (h : q ≠ k) : mapGet (mapSet m k v) q = mapGet m q := by
  have hkq : ¬ (k = q) := fun hh => h hh.symm
  induction m with
  | nil => simp [mapGet, mapSet, hkq]
  | cons e rest ih =>
    by_cases he : e.fst = k
    · simp [mapSet, mapGet, he, hkq]
    · by_cases heq : e.fst = q
      · simp [mapSet, mapGet, he, heq, hkq, h]
      · simp [mapSet, mapGet, he, heq, ih]

/-- Claim C2.  For every flag, a `listModels` result stored under that
flagʼs key (`'subscription'` / `'all'`) less than `CACHE_DURATION = 5`
minutes before the current call is returned as-is without taking the fetch
path; otherwise the list is fetched, stored under that key with the current
timestamp, and returned. -/
theorem listModels_cache_spec (mc : List (String × CacheEntry)) (now : Nat)
    (subscriptionOnly : Bool) (fetchResult : Except Unit (List NanoGPTModel))
    (e : CacheEntry) (ms : List NanoGPTModel) :
    cacheKeyFor true = "subscription"
    ∧ cacheKeyFor false = "all"
    ∧ (mapGet mc (cacheKeyFor subscriptionOnly) = some e →
        now - e.timestamp < CACHE_DURATION →
        listModels mc now subscriptionOnly fetchResult = ⟨e.models, mc, false⟩)
    ∧ (cacheFresh mc (cacheKeyFor subscriptionOnly) now = false →
        listModels mc now subscriptionOnly (Except.ok ms) =
          ⟨ms, mapSet mc (cacheKeyFor subscriptionOnly) ⟨ms, now⟩, true⟩) := by
  refine ⟨rfl, rfl, ?_, ?_⟩
  · intro hget hfresh
    simp [listModels, hget, hfresh]
  · intro hstale
    unfold cacheFresh at hstale
    rcases hget : mapGet mc (cacheKeyFor subscriptionOnly) with _ | c
    · simp [listModels, hget, listModelsFetch]
    · rw [hget] at hstale
      simp only [decide_eq_false_iff_not] at hstale
      simp [listModels, hget, hstale, listModelsFetch]

/-- Witness for C2: a fresh hit is served from the cache and a stale miss
stores the fetched list. -/
theorem listModels_cache_spec_witness :
    listModels [("all", ⟨fallbackModels, 1000⟩)] 2000 false (Except.error ()) =
      ⟨fallbackModels, [("all", ⟨fallbackModels, 1000⟩)], false⟩
    ∧ listModels [] 7000 true (Except.ok fallbackModels) =
      ⟨fallbackModels, [("subscription", ⟨fallbackModels, 7000⟩)], true⟩ := by
  constructor
  · exact (listModels_cache_spec [("all", ⟨fallbackModels, 1000⟩)] 2000 false
      (Except.error ()) ⟨fallbackModels, 1000⟩ []).2.2.1 (by decide) (by decide)
  · have h := (listModels_cache_spec [] 7000 true (Except.error ())
      ⟨[], 0⟩ fallbackModels).2.2.2 (by decide)
    exact h

/-- Claim C10.  When the model fetch throws (also with no API key set),
`listModels` returns its fixed three-entry chat fallback and
`listImageModels` its fixed three-entry image fallback, neither stores
anything, and a subsequent call whose cache is still missing or stale takes
the fetch path again instead of serving the fallback from cache. -/
theorem listModels_fallback_spec (mc : List (String × CacheEntry))
    (imc : Option ImageCacheEntry) (now now2 : Nat) (subscriptionOnly : Bool)
    (fr2 : Except Unit (List NanoGPTModel))
    (fi2 : Except Unit (List NanoGPTImageModel)) :
    (cacheFresh mc (cacheKeyFor subscriptionOnly) now = false →
      listModels mc now subscriptionOnly (Except.error ()) =
        ⟨fallbackModels, mc, true⟩)
    ∧ (imageCacheFresh imc now = false →
      listImageModels imc now (Except.error ()) = ⟨fallbackImageModels, imc, true⟩)
    ∧ (cacheFresh mc (cacheKeyFor subscriptionOnly) now2 = false →
      (listModels mc now2 subscriptionOnly fr2).fetchAttempted = true)
    ∧ (imageCacheFresh imc now2 = false →
      (listImageModels imc now2 fi2).fetchAttempted = true) := by
  refine ⟨?_, ?_, ?_, ?_⟩
  · intro hstale
    unfold cacheFresh at hstale
    rcases hget : mapGet mc (cacheKeyFor subscriptionOnly) with _ | c
    · simp [listModels, hget, listModelsFetch]
    · rw [hget] at hstale
      simp only [decide_eq_false_iff_not] at hstale
      simp [listModels, hget, hstale, listModelsFetch]
  · intro hstale
    unfold imageCacheFresh at hstale
    rcases imc with _ | c
    · simp [listImageModels]
    · simp only [decide_eq_false_iff_not] at hstale
      simp [listImageModels, hstale]
  · intro hstale
    unfold cacheFresh at hstale
    rcases hget : mapGet mc (cacheKeyFor subscriptionOnly) with _ | c
    · cases fr2 <;> simp [listModels, hget, listModelsFetch]
    · rw [hget] at hstale
      simp only [decide_eq_false_iff_not] at hstale
      cases fr2 <;> simp [listModels, hget, hstale, listModelsFetch]
  · intro hstale
    unfold imageCacheFresh at hstale
    rcases imc with _ | c
    · cases fi2 <;> simp [listImageModels]
    · simp only [decide_eq_false_iff_not] at hstale
      cases fi2 <;> simp [listImageModels, hstale]

/-- Witness for C10: failed fetches return the fallbacks without storing,
and the very next call still takes the fetch path. -/
theorem listModels_fallback_spec_witness :
    listModels [] 0 false (Except.error ()) = ⟨fallbackModels, [], true⟩
    ∧ listImageModels none 0 (Except.error ()) = ⟨fallbackImageModels, none, true⟩
    ∧ (listModels [] 1 false (Except.error ())).fetchAttempted = true
    ∧ (listImageModels none 1 (Except.error ())).fetchAttempted = true := by
  have h := listModels_fallback_spec [] none 0 1 false (Except.error ()) (Except.error ())
  exact ⟨h.1 (by decide), h.2.1 (by decide), h.2.2.1 (by decide), h.2.2.2 (by decide)⟩

/-- Claim C5.  The chat history store is a keyed mapping from note path to
an ordered message list: load-after-save returns the saved list, a
never-saved path loads the empty list, clearing makes the path load empty,
append extends the loaded list by one at the end, and all four operations
leave every other path unchanged. -/
theorem chatHistory_store_spec (h : List (String × List ChatMessage))
    (p q : String) (ms : List ChatMessage) (m : ChatMessage) :
    loadChatHistory (saveChatHistory h p ms) p = ms
    ∧ loadChatHistory [] p = []
    ∧ (mapGet h p = none → loadChatHistory h p = [])
    ∧ loadChatHistory (clearChatHistory h p) p = []
    ∧ loadChatHistory (appendMessage h p m) p = loadChatHistory h p ++ [m]
    ∧ (q ≠ p →
        loadChatHistory (saveChatHistory h p ms) q = loadChatHistory h q
        ∧ loadChatHistory (clearChatHistory h p) q = loadChatHistory h q
        ∧ loadChatHistory (appendMessage h p m) q = loadChatHistory h q) := by
  refine ⟨?_, ?_, ?_, ?_, ?_, ?_⟩
  · simp [loadChatHistory, saveChatHistory, mapGet_mapSet_self]
  · simp [loadChatHistory, mapGet]
  · intro hnone
    simp [loadChatHistory, hnone]
  · simp [loadChatHistory, clearChatHistory, saveChatHistory, mapGet_mapSet_self]
  · simp [loadChatHistory, appendMessage, saveChatHistory, mapGet_mapSet_self]
  · intro hq
    refine ⟨?_, ?_, ?_⟩ <;>
      simp [loadChatHistory, saveChatHistory, clearChatHistory, appendMessage,
        mapGet_mapSet_ne _ _ _ _ hq]

/-- Witness for C5 at a concrete two-path store. -/
theorem chatHistory_store_spec_witness :
    loadChatHistory
      (saveChatHistory [("b.md", [⟨ChatRole.user, "hi", none, none⟩])] "a.md"
        [⟨ChatRole.assistant, "yo", none, none⟩]) "a.md" =
      [⟨ChatRole.assistant, "yo", none, none⟩]
    ∧ loadChatHistory
        (saveChatHistory [("b.md", [⟨ChatRole.user, "hi", none, none⟩])] "a.md"
          [⟨ChatRole.assistant, "yo", none, none⟩]) "b.md" =
      [⟨ChatRole.user, "hi", none, none⟩] := by
  have h := chatHistory_store_spec [("b.md", [⟨ChatRole.user, "hi", none, none⟩])]
    "a.md" "b.md" [⟨ChatRole.assistant, "yo", none, none⟩]
    ⟨ChatRole.user, "x", none, none⟩
  refine ⟨h.1, ?_⟩
  rw [(h.2.2.2.2.2 (by decide)).1]
  decide

theorem requestIdSeq_gt (c k : Nat) : ∀ x ∈ requestIdSeq c k, c < x := by
  induction k generalizing c with
  | zero =>
    intro x hx
    simp [requestIdSeq] at hx
  | succ k ih =>
    intro x hx
    simp only [requestIdSeq, issueRequestId] at hx
    rcases List.mem_cons.mp hx with h | h
    · omega
    · have := ih (c + 1) x h
      omega

theorem requestIdSeq_pairwise (c k : Nat) :
    List.Pairwise (· < ·) (requestIdSeq c k) := by
  induction k generalizing c with
  | zero => simp [requestIdSeq]
  | succ k ih =>
    simp only [requestIdSeq, issueRequestId]
    exact List.Pairwise.cons (fun x hx => requestIdSeq_gt (c + 1) k x hx) (ih (c + 1))

/-- Claim C3.  Every (non-skipped) `inlineAutocomplete` invocation takes its
request id by incrementing the shared counter, so successive invocations
receive strictly increasing ids; and when the streamed completion finishes
with an id different from the most recently issued one, the result is
discarded: no ghost text is set and nothing is inserted. -/
theorem inlineAutocomplete_requestId_spec (c k : Nat) :
    (issueRequestId c).1 = c + 1
    ∧ (issueRequestId c).2 = c + 1
    ∧ List.Pairwise (· < ·) (requestIdSeq c k)
    ∧ (∀ (rid cur : Nat) (origCursor currentCursor : CursorPos)
        (lineStartSnapshot currentLine completion : String)
        (cmAvailable : Bool) (cursorOffset : Nat), rid ≠ cur →
        inlineAutocompleteFinish rid cur origCursor currentCursor
          lineStartSnapshot currentLine completion cmAvailable cursorOffset =
          AutocompleteOutcome.noChange) := by
  refine ⟨rfl, rfl, requestIdSeq_pairwise c k, ?_⟩
  intro rid cur _ _ _ _ _ _ _ h
  simp [inlineAutocompleteFinish, h]

/-- Witness for C3: three issued ids are strictly increasing and a stale id
changes nothing. -/
theorem inlineAutocomplete_requestId_spec_witness :
    List.Pairwise (· < ·) (requestIdSeq 0 3)
    ∧ inlineAutocompleteFinish 1 2 ⟨0, 0⟩ ⟨0, 0⟩ "ab" "abc" " hi " true 5 =
        AutocompleteOutcome.noChange := by
  have h := inlineAutocomplete_requestId_spec 0 3
  exact ⟨h.2.2.1, h.2.2.2 1 2 ⟨0, 0⟩ ⟨0, 0⟩ "ab" "abc" " hi " true 5 (by decide)⟩

/-- Claim C4.  `sendMessage` produces no effect at all — no request, no
state change — when the trimmed input is empty, a generation is already in
flight, or no file is active; otherwise its very first effect raises the
generation flag (before any request of the attempt, all of which lie in
`attemptEvents`) and its last effect lowers it, on success and on error
alike. -/
theorem sendMessage_single_flight_spec (input : String)
    (isGenerating hasActiveFile : Bool) (attemptEvents : List ChatEvent)
    (outcome : Except String Unit) :
    ((trimStr input = "" ∨ isGenerating = true ∨ hasActiveFile = false) →
      sendMessage input isGenerating hasActiveFile attemptEvents outcome = [])
    ∧ (trimStr input ≠ "" → isGenerating = false → hasActiveFile = true →
        (sendMessage input isGenerating hasActiveFile attemptEvents outcome).head? =
          some (ChatEvent.setGenerating true)
        ∧ (sendMessage input isGenerating hasActiveFile attemptEvents outcome).getLast? =
          some (ChatEvent.setGenerating false)
        ∧ ∀ ep, ChatEvent.httpRequest ep ∈
            sendMessage input isGenerating hasActiveFile attemptEvents outcome →
            ChatEvent.httpRequest ep ∈ attemptEvents) := by
  constructor
  · intro h
    simp only [sendMessage, if_pos h]
  · intro h1 h2 h3
    have hc : ¬ (trimStr input = "" ∨ isGenerating = true ∨ hasActiveFile = false) := by
      simp [h1, h2, h3]
    refine ⟨?_, ?_, ?_⟩
    · simp [sendMessage, if_neg hc]
    · cases outcome <;>
        · rw [sendMessage, if_neg hc]
          exact List.getLast?_concat _
    · intro ep hmem
      cases outcome <;> simp [sendMessage, if_neg hc] at hmem <;> exact hmem

/-- Witness for C4: a busy view drops the send, and a failing attempt still
ends by lowering the flag. -/
theorem sendMessage_single_flight_spec_witness :
    sendMessage "hi" true true [ChatEvent.httpRequest "chat"] (Except.ok ()) = []
    ∧ (sendMessage "hi" false true [ChatEvent.httpRequest "chat"]
        (Except.error "boom")).getLast? = some (ChatEvent.setGenerating false) := by
  have h := sendMessage_single_flight_spec "hi" true true
    [ChatEvent.httpRequest "chat"] (Except.ok ())
  have h2 := sendMessage_single_flight_spec "hi" false true
    [ChatEvent.httpRequest "chat"] (Except.error "boom")
  exact ⟨h.1 (Or.inr (Or.inl rfl)), (h2.2 (by decide) rfl rfl).2.1⟩

theorem pickEntries_length (maxFiles maxChars : Nat) (fs : List VaultFile)
    (totalChars fileCount : Nat) :
    (pickEntries maxFiles maxChars fs totalChars fileCount).length ≤
      maxFiles - fileCount := by
  induction fs generalizing totalChars fileCount with
  | nil => simp [pickEntries]
  | cons f rest ih =>
    rw [pickEntries]
    split
    · simp
    · rename_i hcount
      rcases hr : f.readResult with _ | content
      · simp only [hr]
        exact ih _ _
      · simp only [hr]
        split
        · exact ih _ _
        · split
          · simp
          · simp only [List.length_cons]
            have := ih (totalChars + (mkEntry f.basename content).length) (fileCount + 1)
            omega

theorem pickEntries_sumLen (maxFiles maxChars : Nat) (fs : List VaultFile)
    (totalChars fileCount : Nat) (h : totalChars ≤ maxChars) :
    totalChars + sumLen (pickEntries maxFiles maxChars fs totalChars fileCount) ≤
      maxChars := by
  induction fs generalizing totalChars fileCount with
  | nil => simpa [pickEntries, sumLen] using h
  | cons f rest ih =>
    rw [pickEntries]
    split
    · simpa [sumLen] using h
    · rcases hr : f.readResult with _ | content
      · simp only [hr]
        exact ih _ _ h
      · simp only [hr]
        split
        · exact ih _ _ h
        · split
          · simpa [sumLen] using h
          · rename_i hfit
            have hle : totalChars + (mkEntry f.basename content).length ≤ maxChars := by
              omega
            have := ih (totalChars + (mkEntry f.basename content).length)
              (fileCount + 1) hle
            simp only [sumLen, List.map_cons, List.sum_cons] at this ⊢
            omega

theorem pickEntries_mem (maxFiles maxChars : Nat) (fs : List VaultFile)
    (totalChars fileCount : Nat) (e : String)
    (he : e ∈ pickEntries maxFiles maxChars fs totalChars fileCount) :
    ∃ f, f ∈ fs ∧ ∃ content, f.readResult = some content
      ∧ e = mkEntry f.basename content := by
  induction fs generalizing totalChars fileCount with
  | nil => simp [pickEntries] at he
  | cons f rest ih =>
    rw [pickEntries] at he
    split at he
    · simp at he
    · rcases hr : f.readResult with _ | content
      · simp only [hr] at he
        obtain ⟨g, hg, hrest⟩ := ih _ _ he
        exact ⟨g, List.mem_cons_of_mem f hg, hrest⟩
      · simp only [hr] at he
        split at he
        · obtain ⟨g, hg, hrest⟩ := ih _ _ he
          exact ⟨g, List.mem_cons_of_mem f hg, hrest⟩
        · split at he
          · simp at he
          · rcases List.mem_cons.mp he with hh | hh
            · exact ⟨f, List.mem_cons_self f rest, content, hr, hh⟩
            · obtain ⟨g, hg, hrest⟩ := ih _ _ hh
              exact ⟨g, List.mem_cons_of_mem f hg, hrest⟩

theorem mem_siblingFiles {allFiles : List VaultFile} {active f : VaultFile}
    (hf : f ∈ siblingFiles allFiles active) :
    f ∈ allFiles ∧ f.path ≠ active.path ∧ f.parent = some (active.parent.getD "") := by
  have h := List.mem_filter.mp hf
  have h2 := h.2
  simp only [Bool.and_eq_true, bne_iff_ne, ne_eq, beq_iff_eq] at h2
  exact ⟨h.1, h2.1, h2.2⟩

/-- Claim C6.  For every configuration, the folder context is assembled
only from markdown files whose parent folder equals the active noteʼs
parent folder, excluding the active note itself; the number of included
files is bounded by `folderContextMaxFiles` and their accumulated entry
text by `folderContextMaxChars`. -/
theorem folderContext_spec (enabled : Bool) (maxFiles maxChars : Nat)
    (allFiles : List VaultFile) (active : VaultFile) :
    (enabled = false → getFolderContext enabled maxFiles maxChars allFiles active = "")
    ∧ (pickEntries maxFiles maxChars (siblingFiles allFiles active) 0 0).length ≤ maxFiles
    ∧ sumLen (pickEntries maxFiles maxChars (siblingFiles allFiles active) 0 0) ≤ maxChars
    ∧ (∀ e ∈ pickEntries maxFiles maxChars (siblingFiles allFiles active) 0 0,
        ∃ f, f ∈ allFiles ∧ f.path ≠ active.path
          ∧ f.parent = some (active.parent.getD "")
          ∧ ∃ content, f.readResult = some content ∧ e = mkEntry f.basename content)
    ∧ (getFolderContext true maxFiles maxChars allFiles active = ""
        ∨ getFolderContext true maxFiles maxChars allFiles active =
          folderHeader (active.parent.getD "") ++
            String.join (pickEntries maxFiles maxChars (siblingFiles allFiles active) 0 0)) := by
  refine ⟨?_, ?_, ?_, ?_, ?_⟩
  · intro h
    simp [getFolderContext, h]
  · have := pickEntries_length maxFiles maxChars (siblingFiles allFiles active) 0 0
    omega
  · have := pickEntries_sumLen maxFiles maxChars (siblingFiles allFiles active) 0 0
      (Nat.zero_le _)
    omega
  · intro e he
    obtain ⟨f, hf, content, hc, hee⟩ := pickEntries_mem _ _ _ _ _ e he
    obtain ⟨h1, h2, h3⟩ := mem_siblingFiles hf
    exact ⟨f, h1, h2, h3, content, hc, hee⟩
  · by_cases hfs : siblingFiles allFiles active = []
    · left
      simp [getFolderContext, hfs]
    · by_cases hes : pickEntries maxFiles maxChars (siblingFiles allFiles active) 0 0 = []
      · left
        simp [getFolderContext, hfs, hes]
      · right
        simp [getFolderContext, hfs, hes]

/-- Witness for C6 at a concrete three-file vault: disabled yields the empty
context, and the single assembled entry comes from the sibling note. -/
theorem folderContext_spec_witness :
    getFolderContext false 5 8000 vaultW activeW = ""
    ∧ ∃ f, f ∈ vaultW ∧ f.path ≠ activeW.path
        ∧ f.parent = some (activeW.parent.getD "")
        ∧ ∃ content, f.readResult = some content
        ∧ mkEntry "b" "Bee" = mkEntry f.basename content := by
  have h := folderContext_spec false 5 8000 vaultW activeW
  have h2 := folderContext_spec true 5 8000 vaultW activeW
  exact ⟨h.1 rfl, h2.2.2.2.1 (mkEntry "b" "Bee") (by decide)⟩
